import Mathlib

/-!
Verification of the session / subscription / authorization engine of the
`mcp-server-oauth` repository, shallowly embedded in Lean 4.

The embedding translates the TypeScript sources:
* `src/auth/validator.ts` (both the primary revision and the development
  revision with normalized issuer and array audiences) — token validation and
  authorization-context construction;
* `src/server.ts` + `src/capabilities/resources.ts` — the module-level
  subscription-callback registry and the per-URI interval map;
* the per-instance subscription-manager revision of `OAuthMcpServer`
  (prefix-checked subscribe, cancel-before-start, idempotent unsubscribe);
* the streamable-HTTP revision of `src/transports/http.ts` — the session
  router for the `/mcp` endpoint and the bearer-auth middleware.

JavaScript `Map` objects become association lists, `setInterval` handles
become explicit task records, thrown errors become `Except.error`, and the
wall clock becomes an explicit `now : Int` parameter.
-/

/-! ## Association-list helpers (JavaScript `Map` semantics) -/

/-- Lookup in an association list (first binding wins, like `Map.get`). -/
def lookupA {β : Type} : List (String × β) → String → Option β
  | [], _ => none
  | (k', v) :: rest, k => if k' = k then some v else lookupA rest k

/-- Remove every binding for a key (`Map.delete`). -/
def eraseA {β : Type} : List (String × β) → String → List (String × β)
  | [], _ => []
  | (k', v) :: rest, k => if k' = k then eraseA rest k else (k', v) :: eraseA rest k

/-- Overwrite the binding for a key (`Map.set`). -/
def setA {β : Type} (m : List (String × β)) (k : String) (v : β) : List (String × β) :=
  (k, v) :: eraseA m k

/-! ## Authorization Gate: `TokenValidator` (src/auth/validator.ts)

The `aud` claim of a decoded JWT is either a JSON string or an array of
strings; the TypeScript `OAuthTokenPayload` interface types it as `string`,
but the development validator handles the array case explicitly, so the
embedding keeps both shapes. -/

/-- The `aud` claim of a decoded token: a single string or an array. -/
inductive AudClaim where
  | single (a : String)
  | multiple (as : List String)
deriving DecidableEq, Repr

/-- Decoded JWT claims (`OAuthTokenPayload` in src/types/index.ts). -/
structure OAuthTokenPayload where
  sub : String
  aud : AudClaim
  iss : String
  exp : Int
  iat : Int
deriving DecidableEq, Repr

/-- The fields of `ServerConfig` the validator reads. -/
structure ServerConfig where
  enableAuth : Bool
  oauthIssuer : String
  oauthAudience : String
  httpPort : Nat
deriving DecidableEq, Repr

/-- `TokenValidator.validateToken` from `src/auth/validator.ts` (primary
revision). `decoded` is the outcome of `jwt.verify` (`none` models a
`JsonWebTokenError`); a thrown error becomes `Except.error` with the thrown
message. The checks run in source order: audience, then issuer, then expiry;
an array `aud` never strictly equals the configured audience string, so it is
rejected. -/
def validateToken (cfg : ServerConfig) (decoded : Option OAuthTokenPayload)
    (now : Int) : Except String OAuthTokenPayload :=
  if cfg.enableAuth = false then .error "Authentication is disabled"
  else
    match decoded with
    | none => .error "Invalid token"
    | some d =>
      if d.aud ≠ AudClaim.single cfg.oauthAudience then .error "Invalid audience"
      else if d.iss ≠ cfg.oauthIssuer then .error "Invalid issuer"
      else if d.exp < now then .error "Token expired"
      else .ok d

/-- `const normalizeUrl = (url) => url.replace(/\/$/, '')` from the
development revision of the validator: strips at most one trailing slash.
Implemented over the character list so that it reduces in the kernel. -/
def normalizeUrl (url : String) : String :=
  if url.data.getLast? = some (Char.ofNat 47) then String.mk url.data.dropLast else url

/-- Whether the decoded `aud` claim matches the configured audience in the
development validator: array membership for arrays, equality for strings. -/
def audMatches (aud : AudClaim) (expected : String) : Bool :=
  match aud with
  | .multiple as => expected ∈ as
  | .single a => a = expected

/-- `TokenValidator.validateToken` from the development revision
(`jwt.decode` without signature verification, normalized issuer comparison,
string-or-array audience): issuer first, then audience, then expiry. -/
def validateTokenDev (cfg : ServerConfig) (decoded : Option OAuthTokenPayload)
    (now : Int) : Except String OAuthTokenPayload :=
  if cfg.enableAuth = false then .error "Authentication is disabled"
  else
    match decoded with
    | none => .error "Invalid token format"
    | some d =>
      if normalizeUrl d.iss ≠ normalizeUrl cfg.oauthIssuer then .error "Invalid issuer"
      else if audMatches d.aud cfg.oauthAudience = false then .error "Invalid audience"
      else if d.exp < now then .error "Token expired"
      else .ok d

/-- `TokenValidator.extractBearerToken`: `null` unless the header is present
and starts with the `Bearer ` scheme prefix; then the rest of the header
(`authHeader.substring(7)`). Implemented over the character list so that it
reduces in the kernel. -/
def extractBearerToken (authHeader : Option String) : Option String :=
  match authHeader with
  | none => none
  | some h =>
    if h.data.take 7 = "Bearer ".data then some (String.mk (h.data.drop 7)) else none

/-- `AuthorizationContext` from src/types/index.ts: optional raw token,
optional decoded claims, and the verdict. -/
structure AuthorizationContext where
  token : Option String
  payload : Option OAuthTokenPayload
  isAuthorized : Bool
deriving DecidableEq, Repr

/-- `TokenValidator.createAuthContext`: authorization disabled short-circuits
to an authorized context with no claims; a missing credential yields an
unauthorized context; a failed validation is caught and becomes an
unauthorized context that preserves the raw token. `decode` models what
`jwt.verify` would return for a given raw token string. -/
def createAuthContext (cfg : ServerConfig) (decode : String → Option OAuthTokenPayload)
    (now : Int) (authHeader : Option String) : AuthorizationContext :=
  if cfg.enableAuth = false then ⟨none, none, true⟩
  else
    match extractBearerToken authHeader with
    | none => ⟨none, none, false⟩
    | some token =>
      match validateToken cfg (decode token) now with
      | .ok payload => ⟨some token, some payload, true⟩
      | .error _ => ⟨some token, none, false⟩

/-- `TokenValidator.generateWWWAuthenticateHeader`: the challenge directive
pointing at the protected-resource discovery document. -/
def generateWWWAuthenticateHeader (cfg : ServerConfig) : String :=
  "Bearer resource_metadata=\"http://localhost:" ++ toString cfg.httpPort ++
    "/.well-known/oauth-protected-resource\""

/-! ## Bearer-auth middleware and session router
(streamable-HTTP revision of `src/transports/http.ts`) -/

/-- The HTTP verb of an inbound request on the `/mcp` endpoint. -/
inductive HttpMethod where
  | get
  | post
  | other
deriving DecidableEq, Repr

/-- The error response written by `createAuthMiddleware` when it does not
call `next()`: HTTP status, optional `WWW-Authenticate` header, and the
JSON-RPC error code when the body is a correlated JSON-RPC error object. -/
structure AuthResponse where
  status : Nat
  wwwAuthenticate : Option String
  jsonRpcErrorCode : Option Int
deriving DecidableEq, Repr

/-- `HttpTransport.createAuthMiddleware`: with auth disabled it passes every
request through without attaching a context; otherwise it builds the
authorization context from the `Authorization` header and, on failure,
answers 401 — with the challenge header for a GET (`isInitialConnection`
is literally `req.method === GET`) and with a bare JSON-RPC error object of
code -32001 for any other verb. On success the context is attached and the
request proceeds. -/
def authMiddleware (cfg : ServerConfig) (decode : String → Option OAuthTokenPayload)
    (now : Int) (method : HttpMethod) (authHeader : Option String) :
    Except AuthResponse (Option AuthorizationContext) :=
  if cfg.enableAuth = false then .ok none
  else
    let ctx := createAuthContext cfg decode now authHeader
    if ctx.isAuthorized = false then
      if method = HttpMethod.get then
        .error ⟨401, some (generateWWWAuthenticateHeader cfg), none⟩
      else
        .error ⟨401, none, some (-32001)⟩
    else
      .ok (some ctx)

/-- End-to-end outcome of a POST on `/mcp` carrying a JSON-RPC body whose
method field is `rpcMethod`: the auth middleware runs first and only when it
calls `next()` does the transport handle the body. The middleware never
inspects `rpcMethod`. -/
def mcpPostResponse (cfg : ServerConfig) (decode : String → Option OAuthTokenPayload)
    (now : Int) (authHeader : Option String) (rpcMethod : String) :
    Except AuthResponse String :=
  match authMiddleware cfg decode now HttpMethod.post authHeader with
  | .error r => .error r
  | .ok _ => .ok rpcMethod

/-- Outcome of the `app.all` handler for `/mcp` (per-session transport map
revision): route within a session, open the long-lived stream, create a new
session, or reject with an HTTP status and message. -/
inductive RouteOutcome where
  | attachStream (sessionId : String)
  | routeInSession (sessionId : String)
  | createdSession (sessionId : String)
  | rejected (status : Nat) (message : String)
  | methodNotAllowed
deriving DecidableEq, Repr

/-- JavaScript truthiness of the `mcp-session-id` header value. -/
def headerTruthy : Option String → Bool
  | none => false
  | some s => s ≠ ""

/-- The `app.all` handler for `/mcp` over the per-session transport map
`sessions`. `fresh` models the UUID the transport generates when a new
session is created (`sessionIdGenerator`). Returns the outcome and the
updated list of known session ids: `onsessioninitialized` registers the new
id; every other path leaves the map untouched. -/
def mcpStep (sessions : List String) (method : HttpMethod)
    (sessionHeader : Option String) (bodyIsInit : Bool) (fresh : String) :
    RouteOutcome × List String :=
  match method with
  | .get =>
    if headerTruthy sessionHeader = false then
      (.rejected 400 "Bad Request: Mcp-Session-Id header is required for GET requests",
       sessions)
    else
      let sid := sessionHeader.getD ""
      if sid ∈ sessions then (.attachStream sid, sessions)
      else (.rejected 404 "Session not found", sessions)
  | .post =>
    let sid := sessionHeader.getD ""
    if headerTruthy sessionHeader = true ∧ sid ∈ sessions then
      (.routeInSession sid, sessions)
    else if headerTruthy sessionHeader = false ∧ bodyIsInit = true then
      (.createdSession fresh, sessions ++ [fresh])
    else if headerTruthy sessionHeader = true then
      (.rejected 400 "Session not found", sessions)
    else
      (.rejected 400 "Bad Request: No valid session ID provided", sessions)
  | .other => (.methodNotAllowed, sessions)

/-! ## Callback-registry subscription engine

Composition of the per-session transport map of `http.ts` (one fresh
`OAuthMcpServer` per session) with the module-level maps of `server.ts`
(`subscriptionCallbacks : Map uri -> callbacks`) and `resources.ts`
(`subscriptions : Map uri -> interval`). Both maps are module-level
singletons shared by every server instance. A subscription callback closes
over the `McpServer` that was being constructed when `registerResources` ran,
and the interval it starts calls `sendResourceUpdated` on that captured
server, so the notification is emitted on that server's session stream. -/

namespace CbModel

/-- The only streamable resource `registerResources` registers. -/
def streamUri : String := "stream://market/AAPL"

/-- Engine state. `sessions` is the transport map of live session ids; each
session id doubles as the id of the `OAuthMcpServer` built for it.
`callbacks` is the module-level `subscriptionCallbacks` map: the uri bound to
the server id its closures captured. `subs` is the module-level
`subscriptions` map: the uri bound to the server id its running interval
sends `sendResourceUpdated` to. -/
structure St where
  nextServer : Nat
  sessions : List Nat
  callbacks : List (String × Nat)
  subs : List (String × Nat)
deriving DecidableEq, Repr

def st0 : St := ⟨0, [], [], []⟩

/-- The POST bootstrap branch of the `/mcp` router: a fresh session id, a
fresh `OAuthMcpServer` whose `registerResources` re-registers the
subscription callbacks for `streamUri`, overwriting the module-level entry so
that the closures now capture the new server. -/
def newSession (st : St) : Nat × St :=
  (st.nextServer,
   { nextServer := st.nextServer + 1
     sessions := st.sessions ++ [st.nextServer]
     callbacks := setA st.callbacks streamUri st.nextServer
     subs := st.subs })

/-- The `resources/subscribe` request handler of `server.ts`: look up the
subscription callbacks for the uri; none registered means the resource is not
streamable and an `McpError` is thrown. Otherwise `onSubscribe` runs: it
clears any existing interval for the uri and starts a new one that targets
the server captured by the callback closure. -/
def handleSubscribe (st : St) (uri : String) : Except String St :=
  match lookupA st.callbacks uri with
  | none => .error ("Resource " ++ uri ++ " is not streamable")
  | some cbServer => .ok { st with subs := setA st.subs uri cbServer }

/-- The `resources/unsubscribe` request handler of `server.ts`: when no
callbacks exist for the uri the handler answers the empty result anyway
(graceful handling); otherwise `onUnsubscribe` clears the interval for the
uri, if one exists, and deletes the map entry. Every path returns the empty
acknowledgment. -/
def handleUnsubscribe (st : St) (uri : String) : Except String St :=
  match lookupA st.callbacks uri with
  | none => .ok st
  | some _ => .ok { st with subs := eraseA st.subs uri }

/-- A `resources/subscribe` POST carrying session `s`: the router dispatches
it to session `s`'s transport and server only when `s` is a known session;
the handler itself consults the shared module-level maps. -/
def subscribeViaSession (st : St) (s : Nat) (uri : String) : Except String St :=
  if s ∈ st.sessions then handleSubscribe st uri
  else .error "Session not found"

/-- End-to-end processing of a `resources/subscribe` request: a thrown
`McpError` becomes a JSON-RPC error response for that request alone, and the
module-level state is left untouched. -/
def processSubscribe (st : St) (s : Nat) (uri : String) : St × Except String Unit :=
  match subscribeViaSession st s uri with
  | .ok st' => (st', .ok ())
  | .error e => (st, .error e)

/-- On an interval tick for `uri`, `sendResourceUpdated` is invoked on the
server the interval captured; with one transport per session the notification
is emitted on that server's session stream. Returns the session id of the
stream that receives the notification, if an interval runs for `uri`. -/
def tickTarget (st : St) (uri : String) : Option Nat := lookupA st.subs uri

/-- Client-visible events that mutate the engine state. -/
inductive Event where
  | newSession
  | subscribe (s : Nat) (uri : String)
  | unsubscribe (s : Nat) (uri : String)

/-- One event step; requests rejected by the router or the handler leave the
state unchanged. -/
def step (st : St) : Event → St
  | .newSession => (CbModel.newSession st).2
  | .subscribe s uri => (processSubscribe st s uri).1
  | .unsubscribe s uri =>
      if s ∈ st.sessions then
        match handleUnsubscribe st uri with
        | .ok st' => st'
        | .error _ => st
      else st

/-- The state reached from the empty engine after a list of events. -/
def run (es : List Event) : St := es.foldl step st0

/-- Every uri with a running interval has registered subscription callbacks:
intervals are only ever started by an `onSubscribe` callback. -/
def Inv (st : St) : Prop :=
  ∀ uri, (lookupA st.subs uri).isSome → (lookupA st.callbacks uri).isSome

end CbModel

/-! ## Per-instance subscription manager

The `OAuthMcpServer` revision that owns a private
`subscriptions : Map uri -> Timeout` per instance, with one instance per
session. `setInterval` handles are modelled as explicit task records tagged
with the session whose instance started them, and `clearInterval` removes the
task with the recorded handle. -/

namespace SubMgr

/-- A running `setInterval` handle: its identity, the session whose server
instance started it and the uri it refreshes. -/
structure Task where
  id : Nat
  session : Nat
  uri : String
deriving DecidableEq, Repr

/-- Engine state: a fresh-handle counter, the set of running intervals and,
for every session, the `subscriptions` map of its server instance
(uri bound to the recorded interval handle). -/
structure St where
  nextTask : Nat
  live : List Task
  maps : Nat → List (String × Nat)

def st0 : St := ⟨0, [], fun _ => []⟩

/-- Update the subscriptions map of one session instance. -/
def updMaps (f : Nat → List (String × Nat)) (s : Nat) (m : List (String × Nat)) :
    Nat → List (String × Nat) :=
  fun k => if k = s then m else f k

/-- The prefix test of the subscribe handler: the source checks
`uri.startsWith` with the string `stream://`; implemented structurally over
the character list so that it reduces in the kernel. -/
def startsWithStream (uri : String) : Bool :=
  uri.data.take 9 == "stream://".data

/-- The `resources/subscribe` handler of session `s`'s instance: a uri
outside the streamable class (`stream://` prefix) is rejected by a thrown
error; otherwise any existing subscription for the uri is stopped
(`clearInterval` on the recorded handle, `delete` of the entry) and then a
new interval is started and recorded under the uri. -/
def subscribe (st : St) (s : Nat) (uri : String) : Except String St :=
  if startsWithStream uri = false then
    .error "Only streaming resources support subscriptions"
  else
    let st1 : St :=
      match lookupA (st.maps s) uri with
      | some oldId =>
          { st with live := st.live.filter (fun t => t.id ≠ oldId)
                    maps := updMaps st.maps s (eraseA (st.maps s) uri) }
      | none => st
    .ok { nextTask := st1.nextTask + 1
          live := ⟨st1.nextTask, s, uri⟩ :: st1.live
          maps := updMaps st1.maps s (setA (st1.maps s) uri st1.nextTask) }

/-- The `resources/unsubscribe` handler of session `s`'s instance: stop the
recorded interval if one exists, otherwise do nothing; both paths answer the
empty success result. -/
def unsubscribe (st : St) (s : Nat) (uri : String) : St :=
  match lookupA (st.maps s) uri with
  | some oldId =>
      { st with live := st.live.filter (fun t => t.id ≠ oldId)
                maps := updMaps st.maps s (eraseA (st.maps s) uri) }
  | none => st

/-- Client-visible subscription events across all sessions. -/
inductive Event where
  | subscribe (s : Nat) (uri : String)
  | unsubscribe (s : Nat) (uri : String)

def step (st : St) : Event → St
  | .subscribe s uri =>
      match SubMgr.subscribe st s uri with
      | .ok st' => st'
      | .error _ => st
  | .unsubscribe s uri => SubMgr.unsubscribe st s uri

def run (es : List Event) : St := es.foldl step st0

/-- Whether a running interval belongs to session `s` and refreshes `uri`. -/
def taskFor (s : Nat) (uri : String) (t : Task) : Bool :=
  t.session = s ∧ t.uri = uri

/-- The number of running intervals that refresh `uri` for session `s`. -/
def countTasks (st : St) (s : Nat) (uri : String) : Nat :=
  (st.live.filter (taskFor s uri)).length

/-- Bookkeeping invariant tying live intervals to the maps: every running
interval is recorded in its session's map under its uri, every recorded
handle is below the fresh counter, and no live handle occurs twice. -/
def Inv (st : St) : Prop :=
  (∀ t ∈ st.live, lookupA (st.maps t.session) t.uri = some t.id) ∧
  (∀ t ∈ st.live, t.id < st.nextTask) ∧
  (st.live.map Task.id).Nodup ∧
  (∀ s uri id, lookupA (st.maps s) uri = some id → id < st.nextTask)

end SubMgr

/-! ## Concrete fixtures used to instantiate the theorems -/

/-- A configuration with authorization enabled. -/
def cfgW : ServerConfig :=
  ⟨true, "https://issuer.example.com", "https://api.example.com", 3000⟩

/-- A decoded credential matching `cfgW` whose `exp` is 1000. -/
def payloadW : OAuthTokenPayload :=
  ⟨"user-1", AudClaim.single "https://api.example.com",
   "https://issuer.example.com", 1000, 900⟩

/-- A configuration whose issuer carries a trailing slash. -/
def cfgSlash : ServerConfig :=
  ⟨true, "https://issuer.example.com/", "https://api.example.com", 3000⟩

/-- A decoded credential whose issuer equals `cfgSlash`'s issuer only after
trailing-slash normalization, valid until 2000. -/
def payloadNoSlash : OAuthTokenPayload :=
  ⟨"user-1", AudClaim.single "https://api.example.com",
   "https://issuer.example.com", 2000, 900⟩

/-- A decoded credential carrying an array audience containing `cfgW`'s
audience. -/
def payloadArrayAud : OAuthTokenPayload :=
  ⟨"user-1", AudClaim.multiple ["x", "https://api.example.com"],
   "https://issuer.example.com", 2000, 900⟩

/-- A decode oracle for a token that fails to decode. -/
def decodeNone : String → Option OAuthTokenPayload := fun _ => none

/-- A decode oracle yielding `payloadW` for every raw token. -/
def decodeW : String → Option OAuthTokenPayload := fun _ => some payloadW

/-- The subscription-manager state after one subscribe to the streamable uri
by session 0. -/
def c3WitnessBase : SubMgr.St :=
  SubMgr.run [SubMgr.Event.subscribe 0 "stream://market/AAPL"]

/-- The state after session 0 subscribes to the same uri a second time. -/
def c3WitnessNext : SubMgr.St :=
  match SubMgr.subscribe c3WitnessBase 0 "stream://market/AAPL" with
  | .ok st' => st'
  | .error _ => c3WitnessBase


/-! ## Lemmas and theorems -/

theorem lookupA_eraseA {β : Type} (m : List (String × β)) (k k' : String) :
    lookupA (eraseA m k) k' = if k = k' then none else lookupA m k' := by
  induction m with
  | nil => simp [eraseA, lookupA]
  | cons p rest ih =>
    obtain ⟨a, b⟩ := p
    by_cases hkk : k = k'
    · subst hkk
      by_cases hak : a = k <;> simp [eraseA, hak, lookupA, ih]
    · by_cases hak : a = k
      · have hak' : a ≠ k' := fun h => hkk (hak ▸ h)
        simp [eraseA, hak, lookupA, ih, hkk, hak']
      · by_cases hak' : a = k' <;>
          simp [eraseA, hak, lookupA, ih, hkk, hak', Ne.symm hkk]

theorem lookupA_setA {β : Type} (m : List (String × β)) (k k' : String) (v : β) :
    lookupA (setA m k v) k' = if k = k' then some v else lookupA m k' := by
  by_cases h : k = k' <;> simp [setA, lookupA, h, lookupA_eraseA]

theorem eraseA_eraseA {β : Type} (m : List (String × β)) (k : String) :
    eraseA (eraseA m k) k = eraseA m k := by
  induction m with
  | nil => simp [eraseA]
  | cons p rest ih =>
    obtain ⟨a, b⟩ := p
    by_cases hak : a = k <;> simp [eraseA, hak, ih]

namespace CbModel

theorem cb_inv_st0 : Inv st0 := by
  intro uri h
  simp [st0, lookupA] at h

theorem cb_inv_step (st : St) (e : Event) (h : Inv st) : Inv (step st e) := by
  cases e with
  | newSession =>
    intro uri hs
    simp only [step, newSession] at hs ⊢
    rw [lookupA_setA]
    by_cases hu : streamUri = uri
    · simp [hu]
    · simp [hu]
      have := h uri hs
      exact this
  | subscribe s uri' =>
    intro uri hs
    simp only [step, processSubscribe] at hs ⊢
    cases hsv : subscribeViaSession st s uri' with
    | error e => simp [hsv] at hs ⊢; exact h uri hs
    | ok st' =>
      simp [hsv] at hs ⊢
      unfold subscribeViaSession at hsv
      by_cases hmem : s ∈ st.sessions
      · simp [hmem] at hsv
        unfold handleSubscribe at hsv
        cases hcb : lookupA st.callbacks uri' with
        | none => simp [hcb] at hsv
        | some cb =>
          simp [hcb] at hsv
          subst hsv
          simp only at hs
          rw [lookupA_setA] at hs
          by_cases hu : uri' = uri
          · subst hu; simp [hcb]
          · simp [hu] at hs
            exact h uri hs
      · simp [hmem] at hsv
  | unsubscribe s uri' =>
    intro uri hs
    by_cases hmem : s ∈ st.sessions
    · have hstep : step st (Event.unsubscribe s uri') =
          (match lookupA st.callbacks uri' with
           | none => st
           | some _ => { st with subs := eraseA st.subs uri' }) := by
        simp only [step, if_pos hmem, handleUnsubscribe]
        cases lookupA st.callbacks uri' <;> rfl
      rw [hstep] at hs ⊢
      cases hcb : lookupA st.callbacks uri' with
      | none =>
        simp only [hcb] at hs ⊢
        exact h uri hs
      | some cb =>
        simp only [hcb] at hs ⊢
        rw [lookupA_eraseA] at hs
        by_cases hu : uri' = uri
        · simp [hu] at hs
        · simp [hu] at hs
          exact h uri hs
    · simp only [step, if_neg hmem] at hs ⊢
      exact h uri hs

theorem cb_inv_run (es : List Event) : Inv (run es) := by
  suffices hgen : ∀ st, Inv st → Inv (es.foldl step st) from hgen st0 cb_inv_st0
  induction es with
  | nil => intro st h; exact h
  | cons e rest ih =>
    intro st h
    exact ih (step st e) (cb_inv_step st e h)

end CbModel

namespace SubMgr

theorem sub_inv_st0 : Inv st0 := by
  refine ⟨?_, ?_, ?_, ?_⟩ <;> simp [st0, lookupA]

theorem lookupA_updMaps_self (f : Nat → List (String × Nat)) (s : Nat)
    (m : List (String × Nat)) : updMaps f s m s = m := by
  simp [updMaps]

theorem lookupA_updMaps_other (f : Nat → List (String × Nat)) (s k : Nat)
    (m : List (String × Nat)) (h : k ≠ s) : updMaps f s m k = f k := by
  simp [updMaps, h]

theorem sub_inv_subscribe (st : St) (s : Nat) (uri : String) (st' : St)
    (h : Inv st) (hs : subscribe st s uri = .ok st') : Inv st' := by
  obtain ⟨h1, h2, h3, h4⟩ := h
  unfold subscribe at hs
  by_cases hpre : startsWithStream uri = false
  · rw [if_pos hpre] at hs
    exact absurd hs (by simp)
  · rw [if_neg hpre] at hs
    cases hold : lookupA (st.maps s) uri with
    | none =>
      simp only [hold] at hs
      rw [Except.ok.injEq] at hs
      rw [← hs]
      refine ⟨?_, ?_, ?_, ?_⟩ <;> dsimp only
      · intro t ht
        rcases List.mem_cons.mp ht with hteq | htl
        · subst hteq
          simp [updMaps, lookupA_setA]
        · by_cases hsess : t.session = s
          · rw [hsess, lookupA_updMaps_self, lookupA_setA]
            have := h1 t htl
            rw [hsess] at this
            by_cases hu : uri = t.uri
            · rw [← hu] at this; rw [this] at hold; exact absurd hold (by simp)
            · rw [if_neg hu]; exact this
          · rw [lookupA_updMaps_other _ _ _ _ hsess]
            exact h1 t htl
      · intro t ht
        rcases List.mem_cons.mp ht with hteq | htl
        · subst hteq; simp
        · exact Nat.lt_succ_of_lt (h2 t htl)
      · simp only [List.map_cons]
        refine List.nodup_cons.mpr ⟨?_, h3⟩
        intro hmem
        rcases List.mem_map.mp hmem with ⟨t, htl, hid⟩
        exact absurd (hid ▸ h2 t htl) (by simp)
      · intro s' uri' id hl
        by_cases hs' : s' = s
        · rw [hs', lookupA_updMaps_self, lookupA_setA] at hl
          by_cases hu : uri = uri'
          · rw [if_pos hu] at hl
            have hid : st.nextTask = id := by simpa using hl
            omega
          · rw [if_neg hu] at hl
            exact Nat.lt_succ_of_lt (h4 s uri' id hl)
        · rw [lookupA_updMaps_other _ _ _ _ hs'] at hl
          exact Nat.lt_succ_of_lt (h4 s' uri' id hl)
    | some oldId =>
      simp only [hold] at hs
      rw [Except.ok.injEq] at hs
      rw [← hs]
      refine ⟨?_, ?_, ?_, ?_⟩ <;> dsimp only
      · intro t ht
        rcases List.mem_cons.mp ht with hteq | htl
        · subst hteq
          simp [updMaps, lookupA_setA]
        · rw [List.mem_filter] at htl
          obtain ⟨htl, htid⟩ := htl
          by_cases hsess : t.session = s
          · rw [hsess]
            simp only [lookupA_updMaps_self]
            rw [lookupA_setA]
            have hmt := h1 t htl
            rw [hsess] at hmt
            by_cases hu : uri = t.uri
            · rw [← hu] at hmt
              rw [hmt] at hold
              have hid : t.id = oldId := by simpa using hold
              have htid' : t.id ≠ oldId := by simpa using htid
              exact absurd hid htid'
            · rw [if_neg hu]
              rw [lookupA_eraseA, if_neg hu]
              exact hmt
          · rw [lookupA_updMaps_other _ _ _ _ hsess]
            simp only [updMaps]
            rw [if_neg hsess]
            exact h1 t htl
      · intro t ht
        rcases List.mem_cons.mp ht with hteq | htl
        · subst hteq; simp
        · rw [List.mem_filter] at htl
          exact Nat.lt_succ_of_lt (h2 t htl.1)
      · simp only [List.map_cons]
        refine List.nodup_cons.mpr ⟨?_, ?_⟩
        · intro hmem
          rcases List.mem_map.mp hmem with ⟨t, htl, hid⟩
          rw [List.mem_filter] at htl
          exact absurd (hid ▸ h2 t htl.1) (by simp)
        · exact h3.sublist ((List.filter_sublist _).map _)
      · intro s' uri' id hl
        by_cases hs' : s' = s
        · rw [hs', lookupA_updMaps_self, lookupA_setA] at hl
          by_cases hu : uri = uri'
          · rw [if_pos hu] at hl
            have hid : st.nextTask = id := by simpa using hl
            omega
          · rw [if_neg hu, lookupA_updMaps_self, lookupA_eraseA, if_neg hu] at hl
            exact Nat.lt_succ_of_lt (h4 s uri' id hl)
        · rw [lookupA_updMaps_other _ _ _ _ hs',
              lookupA_updMaps_other _ _ _ _ hs'] at hl
          exact Nat.lt_succ_of_lt (h4 s' uri' id hl)

theorem sub_inv_unsubscribe (st : St) (s : Nat) (uri : String)
    (h : Inv st) : Inv (unsubscribe st s uri) := by
  obtain ⟨h1, h2, h3, h4⟩ := h
  unfold unsubscribe
  cases hold : lookupA (st.maps s) uri with
  | none => exact ⟨h1, h2, h3, h4⟩
  | some oldId =>
    refine ⟨?_, ?_, ?_, ?_⟩ <;> dsimp only
    · intro t ht
      rw [List.mem_filter] at ht
      obtain ⟨htl, htid⟩ := ht
      have htid' : t.id ≠ oldId := by simpa using htid
      by_cases hsess : t.session = s
      · rw [hsess, lookupA_updMaps_self, lookupA_eraseA]
        have hmt := h1 t htl
        rw [hsess] at hmt
        by_cases hu : uri = t.uri
        · rw [← hu] at hmt
          rw [hmt] at hold
          have : t.id = oldId := by simpa using hold
          exact absurd this htid'
        · rw [if_neg hu]
          exact hmt
      · rw [lookupA_updMaps_other _ _ _ _ hsess]
        exact h1 t htl
    · intro t ht
      rw [List.mem_filter] at ht
      exact h2 t ht.1
    · exact h3.sublist ((List.filter_sublist _).map _)
    · intro s' uri' id hl
      by_cases hs' : s' = s
      · rw [hs', lookupA_updMaps_self, lookupA_eraseA] at hl
        by_cases hu : uri = uri'
        · rw [if_pos hu] at hl
          exact absurd hl (by simp)
        · rw [if_neg hu] at hl
          exact h4 s uri' id hl
      · rw [lookupA_updMaps_other _ _ _ _ hs'] at hl
        exact h4 s' uri' id hl

theorem sub_inv_step (st : St) (e : Event) (h : Inv st) : Inv (step st e) := by
  cases e with
  | subscribe s uri =>
    have hred : step st (Event.subscribe s uri) =
        (match SubMgr.subscribe st s uri with
         | .ok st' => st'
         | .error _ => st) := rfl
    rw [hred]
    cases hs : SubMgr.subscribe st s uri with
    | ok st' => exact sub_inv_subscribe st s uri st' h hs
    | error msg => exact h
  | unsubscribe s uri => exact sub_inv_unsubscribe st s uri h

theorem sub_inv_run (es : List Event) : Inv (run es) := by
  suffices hgen : ∀ st, Inv st → Inv (es.foldl step st) from hgen st0 sub_inv_st0
  induction es with
  | nil => intro st h; exact h
  | cons e rest ih =>
    intro st h
    exact ih (step st e) (sub_inv_step st e h)

theorem length_le_one_of_nodup_of_all_eq (l : List Nat) (hn : l.Nodup)
    (v : Nat) (h : ∀ x ∈ l, x = v) : l.length ≤ 1 := by
  cases l with
  | nil => simp
  | cons a t =>
    cases t with
    | nil => simp
    | cons b r =>
      exfalso
      have ha := h a (by simp)
      have hb := h b (by simp)
      rw [List.nodup_cons] at hn
      exact hn.1 (by simp [ha, hb])

theorem sub_countTasks_le_one (st : St) (h : Inv st) (s : Nat) (uri : String) :
    countTasks st s uri ≤ 1 := by
  obtain ⟨h1, h2, h3, h4⟩ := h
  unfold countTasks
  cases hold : lookupA (st.maps s) uri with
  | none =>
    have hempty : st.live.filter (taskFor s uri) = [] := by
      rw [List.filter_eq_nil_iff]
      intro t htl hcond
      have hc : t.session = s ∧ t.uri = uri := by simpa [taskFor] using hcond
      have hmt := h1 t htl
      rw [hc.1, hc.2] at hmt
      rw [hmt] at hold
      exact absurd hold (by simp)
    simp [hempty]
  | some v =>
    have hnd : ((st.live.filter (taskFor s uri)).map Task.id).Nodup :=
      h3.sublist ((List.filter_sublist _).map _)
    have hall : ∀ x ∈ (st.live.filter (taskFor s uri)).map Task.id,
        x = v := by
      intro x hx
      rcases List.mem_map.mp hx with ⟨t, htl, rfl⟩
      rw [List.mem_filter] at htl
      obtain ⟨htl, hcond⟩ := htl
      have hc : t.session = s ∧ t.uri = uri := by simpa [taskFor] using hcond
      have hmt := h1 t htl
      rw [hc.1, hc.2] at hmt
      rw [hmt] at hold
      simpa using hold
    have hlen := length_le_one_of_nodup_of_all_eq _ hnd v hall
    simpa using hlen

end SubMgr

/-! ## Claim theorems -/

/-- C4 (counterexample): the claim states that the expiry check requires
`exp` strictly greater than the current time, so a credential whose `exp`
equals the current time is rejected as expired. The code rejects only when
`exp < now`: with matching audience and issuer and `exp = now = 1000`,
`validateToken` accepts the credential. -/
theorem c4_exp_equal_now_accepted :
    payloadW.exp = 1000 ∧ validateToken cfgW (some payloadW) 1000 = .ok payloadW :=
  ⟨rfl, rfl⟩

/-- C4 (amended): the expiry check accepts a decoded credential exactly when
`now ≤ exp` — a credential whose `exp` equals the current time is accepted —
and rejects it as expired exactly when `exp < now`; stated as the full
acceptance characterization of `validateToken` with authorization enabled. -/
theorem c4_expiry_check (cfg : ServerConfig) (d : OAuthTokenPayload) (now : Int)
    (henable : cfg.enableAuth = true) :
    validateToken cfg (some d) now = .ok d ↔
      d.aud = AudClaim.single cfg.oauthAudience ∧ d.iss = cfg.oauthIssuer ∧
      now ≤ d.exp := by
  by_cases h1 : d.aud = AudClaim.single cfg.oauthAudience
  · by_cases h2 : d.iss = cfg.oauthIssuer
    · by_cases h3 : d.exp < now
      · simp [validateToken, henable, h1, h2, h3] <;> omega
      · simp [validateToken, henable, h1, h2, h3] <;> omega
    · simp [validateToken, henable, h1, h2]
  · simp [validateToken, henable, h1]

/-- Instantiation of `c4_expiry_check` at the concrete fixture. -/
theorem c4_expiry_check_witness :
    validateToken cfgW (some payloadW) 1000 = .ok payloadW ↔
      payloadW.aud = AudClaim.single cfgW.oauthAudience ∧
      payloadW.iss = cfgW.oauthIssuer ∧ (1000 : Int) ≤ payloadW.exp :=
  c4_expiry_check cfgW payloadW 1000 rfl

/-- C8 (counterexample): the claim states that issuer validation accepts a
credential exactly when the issuers agree after trailing-slash normalization
and that an array audience containing the configured audience is accepted.
The primary validator compares by strict equality: a credential whose issuer
differs from the configuration only by a trailing slash is rejected with
"Invalid issuer" although the normalized issuers agree (the development
validator accepts it). -/
theorem c8_normalized_issuer_rejected :
    normalizeUrl payloadNoSlash.iss = normalizeUrl cfgSlash.oauthIssuer ∧
    validateToken cfgSlash (some payloadNoSlash) 1000 = .error "Invalid issuer" ∧
    validateTokenDev cfgSlash (some payloadNoSlash) 1000 = .ok payloadNoSlash :=
  ⟨rfl, rfl, rfl⟩

/-- C8 (amended): the trailing-slash-normalized issuer comparison and the
string-or-array audience membership describe the development revision of the
validator; the primary validator of `src/auth/validator.ts` compares issuer
and audience by strict string equality, so slash-variant issuers and array
audiences are rejected there. Both acceptance characterizations are stated
with authorization enabled. -/
theorem c8_issuer_audience_checks (cfg : ServerConfig) (d : OAuthTokenPayload)
    (now : Int) (henable : cfg.enableAuth = true) :
    (validateTokenDev cfg (some d) now = .ok d ↔
      normalizeUrl d.iss = normalizeUrl cfg.oauthIssuer ∧
      audMatches d.aud cfg.oauthAudience = true ∧ now ≤ d.exp) ∧
    (validateToken cfg (some d) now = .ok d ↔
      d.aud = AudClaim.single cfg.oauthAudience ∧ d.iss = cfg.oauthIssuer ∧
      now ≤ d.exp) := by
  constructor
  · by_cases h1 : normalizeUrl d.iss = normalizeUrl cfg.oauthIssuer
    · by_cases h2 : audMatches d.aud cfg.oauthAudience = true
      · by_cases h3 : d.exp < now
        · simp [validateTokenDev, henable, h1, h2, h3] <;> omega
        · simp [validateTokenDev, henable, h1, h2, h3] <;> omega
      · simp [validateTokenDev, henable, h1, h2]
    · simp [validateTokenDev, henable, h1]
  · by_cases h1 : d.aud = AudClaim.single cfg.oauthAudience
    · by_cases h2 : d.iss = cfg.oauthIssuer
      · by_cases h3 : d.exp < now
        · simp [validateToken, henable, h1, h2, h3] <;> omega
        · simp [validateToken, henable, h1, h2, h3] <;> omega
      · simp [validateToken, henable, h1, h2]
    · simp [validateToken, henable, h1]

/-- Instantiation of `c8_issuer_audience_checks` at a credential with an
array audience and a slash-variant issuer. -/
theorem c8_issuer_audience_checks_witness :
    (validateTokenDev cfgSlash (some payloadArrayAud) 1500 = .ok payloadArrayAud ↔
      normalizeUrl payloadArrayAud.iss = normalizeUrl cfgSlash.oauthIssuer ∧
      audMatches payloadArrayAud.aud cfgSlash.oauthAudience = true ∧
      (1500 : Int) ≤ payloadArrayAud.exp) ∧
    (validateToken cfgSlash (some payloadArrayAud) 1500 = .ok payloadArrayAud ↔
      payloadArrayAud.aud = AudClaim.single cfgSlash.oauthAudience ∧
      payloadArrayAud.iss = cfgSlash.oauthIssuer ∧
      (1500 : Int) ≤ payloadArrayAud.exp) :=
  c8_issuer_audience_checks cfgSlash payloadArrayAud 1500 rfl

/-- C9: with authorization enabled, a missing credential yields an
unauthorized context, and a failed validation is caught and yields an
unauthorized context that preserves the raw token; `createAuthContext` is a
total function of the header, so failure is always returned as a value and
never thrown to the caller. -/
theorem c9_auth_context_failure_is_value (cfg : ServerConfig)
    (decode : String → Option OAuthTokenPayload) (now : Int) (hdr : Option String)
    (henable : cfg.enableAuth = true) :
    (extractBearerToken hdr = none →
      createAuthContext cfg decode now hdr = ⟨none, none, false⟩) ∧
    (∀ token msg, extractBearerToken hdr = some token →
      validateToken cfg (decode token) now = .error msg →
      createAuthContext cfg decode now hdr = ⟨some token, none, false⟩) := by
  constructor
  · intro hex
    simp [createAuthContext, henable, hex]
  · intro token msg hex hval
    simp [createAuthContext, henable, hex, hval]

/-- Instantiation of `c9_auth_context_failure_is_value`: a header without the
Bearer scheme yields the bare unauthorized context, and a credential that
fails validation yields an unauthorized context carrying the raw token. -/
theorem c9_auth_context_failure_is_value_witness :
    createAuthContext cfgW decodeNone 1000 (some "Basic xyz") = ⟨none, none, false⟩ ∧
    createAuthContext cfgW decodeNone 1000 (some "Bearer tok") =
      ⟨some "tok", none, false⟩ :=
  ⟨(c9_auth_context_failure_is_value cfgW decodeNone 1000 (some "Basic xyz") rfl).1
      (by decide),
   (c9_auth_context_failure_is_value cfgW decodeNone 1000 (some "Bearer tok") rfl).2
      "tok" "Invalid token" (by decide) rfl⟩

/-- C10: with authentication enabled, an authorized context always carries
both the raw token and the decoded claims payload, an unauthorized context
never carries a payload, and an authorized context without a payload is only
possible when authentication is disabled. -/
theorem c10_authorized_iff_claims (cfg : ServerConfig)
    (decode : String → Option OAuthTokenPayload) (now : Int) (hdr : Option String) :
    (cfg.enableAuth = true →
      (((createAuthContext cfg decode now hdr).isAuthorized = true →
        (createAuthContext cfg decode now hdr).token.isSome = true ∧
        (createAuthContext cfg decode now hdr).payload.isSome = true) ∧
       ((createAuthContext cfg decode now hdr).isAuthorized = false →
        (createAuthContext cfg decode now hdr).payload = none))) ∧
    ((createAuthContext cfg decode now hdr).isAuthorized = true →
      (createAuthContext cfg decode now hdr).payload = none →
      cfg.enableAuth = false) := by
  by_cases hen : cfg.enableAuth = false
  · refine ⟨?_, ?_⟩
    · intro htrue
      rw [htrue] at hen
      exact absurd hen (by simp)
    · intro _ _
      exact hen
  · have hen' : cfg.enableAuth = true := by
      cases hcfg : cfg.enableAuth
      · exact absurd hcfg hen
      · rfl
    cases hex : extractBearerToken hdr with
    | none =>
      have hctx : createAuthContext cfg decode now hdr = ⟨none, none, false⟩ := by
        simp [createAuthContext, hen', hex]
      rw [hctx]
      refine ⟨?_, ?_⟩
      · intro _
        refine ⟨?_, ?_⟩
        · intro hauth
          exact absurd hauth (by simp)
        · intro _
          rfl
      · intro hauth
        exact absurd hauth (by simp)
    | some token =>
      cases hval : validateToken cfg (decode token) now with
      | ok payload =>
        have hctx : createAuthContext cfg decode now hdr =
            ⟨some token, some payload, true⟩ := by
          simp [createAuthContext, hen', hex, hval]
        rw [hctx]
        refine ⟨?_, ?_⟩
        · intro _
          refine ⟨?_, ?_⟩
          · intro _
            exact ⟨rfl, rfl⟩
          · intro hauth
            exact absurd hauth (by simp)
        · intro _ hp
          exact absurd hp (by simp)
      | error msg =>
        have hctx : createAuthContext cfg decode now hdr =
            ⟨some token, none, false⟩ := by
          simp [createAuthContext, hen', hex, hval]
        rw [hctx]
        refine ⟨?_, ?_⟩
        · intro _
          refine ⟨?_, ?_⟩
          · intro hauth
            exact absurd hauth (by simp)
          · intro _
            rfl
        · intro hauth
          exact absurd hauth (by simp)

/-- Instantiation of `c10_authorized_iff_claims`: an authorized context for a
successfully validated credential carries the raw token and the payload. -/
theorem c10_authorized_iff_claims_witness :
    (createAuthContext cfgW decodeW 1000 (some "Bearer tok")).token.isSome = true ∧
    (createAuthContext cfgW decodeW 1000 (some "Bearer tok")).payload.isSome = true :=
  ((c10_authorized_iff_claims cfgW decodeW 1000 (some "Bearer tok")).1 rfl).1
    (by decide)

/-- C7 (counterexample): the claim says a connection-establishing request —
stream-attach or initialize — with an absent or invalid credential receives
an unauthorized status with the challenge directive. The middleware keys the
distinction on the HTTP verb alone, so a POST whose JSON-RPC method is
"initialize" and which carries no credential receives the correlated 401
JSON-RPC error object with code -32001 and no WWW-Authenticate challenge. -/
theorem c7_post_bootstrap_gets_no_challenge :
    mcpPostResponse cfgW decodeNone 1000 none "initialize" =
      .error ⟨401, none, some (-32001)⟩ := rfl

/-- C7 (amended): with authorization enabled and the credential absent or
invalid, connection-establishing is decided by the HTTP verb: an unauthorized
GET (stream-attach) receives status 401 with the WWW-Authenticate challenge
pointing at the discovery document, while every unauthorized non-GET request,
POST bootstrap included, receives a correlated JSON-RPC error object with the
distinct code -32001 and no challenge directive. -/
theorem c7_challenge_iff_get (cfg : ServerConfig)
    (decode : String → Option OAuthTokenPayload) (now : Int) (hdr : Option String)
    (henable : cfg.enableAuth = true)
    (hunauth : (createAuthContext cfg decode now hdr).isAuthorized = false) :
    authMiddleware cfg decode now HttpMethod.get hdr =
      .error ⟨401, some (generateWWWAuthenticateHeader cfg), none⟩ ∧
    ∀ rpcMethod, mcpPostResponse cfg decode now hdr rpcMethod =
      .error ⟨401, none, some (-32001)⟩ := by
  constructor
  · simp [authMiddleware, henable, hunauth]
  · intro rpcMethod
    simp [mcpPostResponse, authMiddleware, henable, hunauth]

/-- Instantiation of `c7_challenge_iff_get` at a credential-less request. -/
theorem c7_challenge_iff_get_witness :
    authMiddleware cfgW decodeNone 1000 HttpMethod.get none =
      .error ⟨401, some (generateWWWAuthenticateHeader cfgW), none⟩ ∧
    mcpPostResponse cfgW decodeNone 1000 none "tools/list" =
      .error ⟨401, none, some (-32001)⟩ :=
  ⟨(c7_challenge_iff_get cfgW decodeNone 1000 none rfl rfl).1,
   (c7_challenge_iff_get cfgW decodeNone 1000 none rfl rfl).2 "tools/list"⟩

/-- C2: the `/mcp` router follows the bootstrap decision table: a POST with
no session id whose body is an initialization request creates a new session
(registered via the generated id); a POST with no session id and any other
body is rejected as a bad request; a request carrying a known session id is
routed within that session (POST) or attaches the stream (GET); a request
carrying an unknown session id is rejected with a session-not-found error and
the session map is never extended on any rejection path; and a GET
stream-attach without a session id is rejected before any channel opens. -/
theorem c2_router_decision_table (sessions : List String)
    (hdr : Option String) (isInit : Bool) (fresh : String) :
    (mcpStep sessions HttpMethod.post none true fresh =
      (.createdSession fresh, sessions ++ [fresh])) ∧
    (mcpStep sessions HttpMethod.post none false fresh =
      (.rejected 400 "Bad Request: No valid session ID provided", sessions)) ∧
    (∀ sid, hdr = some sid → sid ≠ "" → sid ∈ sessions →
      mcpStep sessions HttpMethod.post hdr isInit fresh =
        (.routeInSession sid, sessions)) ∧
    (∀ sid, hdr = some sid → sid ≠ "" → sid ∉ sessions →
      mcpStep sessions HttpMethod.post hdr isInit fresh =
        (.rejected 400 "Session not found", sessions)) ∧
    (mcpStep sessions HttpMethod.get none isInit fresh =
      (.rejected 400 "Bad Request: Mcp-Session-Id header is required for GET requests",
       sessions)) ∧
    (∀ sid, hdr = some sid → sid ≠ "" → sid ∉ sessions →
      mcpStep sessions HttpMethod.get hdr isInit fresh =
        (.rejected 404 "Session not found", sessions)) ∧
    (∀ sid, hdr = some sid → sid ≠ "" → sid ∈ sessions →
      mcpStep sessions HttpMethod.get hdr isInit fresh =
        (.attachStream sid, sessions)) := by
  refine ⟨?_, ?_, ?_, ?_, ?_, ?_, ?_⟩
  · simp [mcpStep, headerTruthy]
  · simp [mcpStep, headerTruthy]
  · intro sid hh hne hmem
    subst hh
    simp [mcpStep, headerTruthy, hne, hmem]
  · intro sid hh hne hmem
    subst hh
    simp [mcpStep, headerTruthy, hne, hmem]
  · simp [mcpStep, headerTruthy]
  · intro sid hh hne hmem
    subst hh
    simp [mcpStep, headerTruthy, hne, hmem]
  · intro sid hh hne hmem
    subst hh
    simp [mcpStep, headerTruthy, hne, hmem]

/-- Instantiation of `c2_router_decision_table`: routing within a known
session and rejecting an unknown session id on the stream-attach path. -/
theorem c2_router_decision_table_witness :
    mcpStep ["abc"] HttpMethod.post (some "abc") false "new" =
      (.routeInSession "abc", ["abc"]) ∧
    mcpStep ["abc"] HttpMethod.get (some "zzz") false "new" =
      (.rejected 404 "Session not found", ["abc"]) :=
  ⟨(c2_router_decision_table ["abc"] (some "abc") false "new").2.2.1 "abc" rfl
      (by decide) (by decide),
   (c2_router_decision_table ["abc"] (some "zzz") false "new").2.2.2.2.2.1 "zzz" rfl
      (by decide) (by decide)⟩

/-- C1: the claim states that a notification produced by a subscription made
under session S1 is delivered only on S1's stream and never on S2's. In the
code, two sessions are created (S1 = 0, then S2 = 1) and S1 subscribes to the
streamable uri; the subscribe handler consults the module-level callback
registry, whose closures capture the most recently constructed server — the
one bound to S2 — so the interval tick delivers the resource-update
notification on S2's stream and not on S1's, refuting the claimed session
isolation (the broadcast revision of `http.ts` likewise writes every
notification to every connected stream). -/
theorem c1_notification_crosses_sessions :
    (CbModel.newSession CbModel.st0).1 = 0 ∧
    (CbModel.newSession (CbModel.newSession CbModel.st0).2).1 = 1 ∧
    (CbModel.processSubscribe
      (CbModel.newSession (CbModel.newSession CbModel.st0).2).2 0
      CbModel.streamUri).2 = .ok () ∧
    CbModel.tickTarget
      (CbModel.processSubscribe
        (CbModel.newSession (CbModel.newSession CbModel.st0).2).2 0
        CbModel.streamUri).1
      CbModel.streamUri = some 1 ∧
    CbModel.tickTarget
      (CbModel.processSubscribe
        (CbModel.newSession (CbModel.newSession CbModel.st0).2).2 0
        CbModel.streamUri).1
      CbModel.streamUri ≠ some 0 :=
  ⟨rfl, rfl, rfl, rfl, by decide⟩

/-- C5: on every reachable engine state, `resources/unsubscribe` answers the
empty acknowledgment and never fails; afterwards no interval runs for the
uri, and repeating the call yields the identical acknowledgment and state, so
duplicate or late unsubscribe calls succeed identically as no-ops. -/
theorem c5_unsubscribe_idempotent_ack (es : List CbModel.Event) (uri : String) :
    ∃ st', CbModel.handleUnsubscribe (CbModel.run es) uri = .ok st' ∧
      lookupA st'.subs uri = none ∧
      CbModel.handleUnsubscribe st' uri = .ok st' := by
  have hinv := CbModel.cb_inv_run es
  cases hcb : lookupA (CbModel.run es).callbacks uri with
  | none =>
    refine ⟨CbModel.run es, ?_, ?_, ?_⟩
    · unfold CbModel.handleUnsubscribe
      rw [hcb]
    · cases hsub : lookupA (CbModel.run es).subs uri with
      | none => rfl
      | some v =>
        have hx := hinv uri (by rw [hsub]; rfl)
        rw [hcb] at hx
        exact absurd hx (by simp)
    · unfold CbModel.handleUnsubscribe
      rw [hcb]
  | some cb =>
    refine ⟨{ CbModel.run es with subs := eraseA (CbModel.run es).subs uri }, ?_, ?_, ?_⟩
    · unfold CbModel.handleUnsubscribe
      rw [hcb]
    · dsimp only
      rw [lookupA_eraseA]
      simp
    · unfold CbModel.handleUnsubscribe
      dsimp only
      rw [hcb, eraseA_eraseA]

/-- C6: a `resources/subscribe` call from a live session for a uri outside
the fixed allow-list (the registered subscription callbacks) fails with the
subscription error, starts no recurring task, and leaves the engine state —
the session and its other subscriptions included — unchanged. -/
theorem c6_subscribe_outside_allow_list (st : CbModel.St) (s : Nat) (uri : String)
    (hmem : s ∈ st.sessions) (hcb : lookupA st.callbacks uri = none) :
    CbModel.processSubscribe st s uri =
      (st, .error ("Resource " ++ uri ++ " is not streamable")) := by
  unfold CbModel.processSubscribe CbModel.subscribeViaSession CbModel.handleSubscribe
  rw [if_pos hmem, hcb]

/-- Instantiation of `c6_subscribe_outside_allow_list`: session 0 subscribing
to the non-streamable account resource is rejected and the state is kept. -/
theorem c6_subscribe_outside_allow_list_witness :
    CbModel.processSubscribe (CbModel.newSession CbModel.st0).2 0
        "account://info/ACC001" =
      ((CbModel.newSession CbModel.st0).2,
       .error ("Resource " ++ "account://info/ACC001" ++ " is not streamable")) :=
  c6_subscribe_outside_allow_list (CbModel.newSession CbModel.st0).2 0
    "account://info/ACC001" (by decide) (by decide)

/-- C3: on every reachable subscription-manager state, at most one recurring
scheduled task runs per (session, uri) pair, and a second subscribe to the
same uri by the same session cancels the previously recorded interval before
starting the new one, leaving exactly one live task for the pair — a second
subscribe never doubles the notification rate. -/
theorem c3_at_most_one_task_per_pair (es : List SubMgr.Event) (s : Nat) (uri : String) :
    SubMgr.countTasks (SubMgr.run es) s uri ≤ 1 ∧
    (∀ oldId st', lookupA ((SubMgr.run es).maps s) uri = some oldId →
      SubMgr.subscribe (SubMgr.run es) s uri = .ok st' →
      oldId ∉ st'.live.map SubMgr.Task.id ∧
      SubMgr.countTasks st' s uri = 1) := by
  obtain ⟨h1, h2, h3, h4⟩ := SubMgr.sub_inv_run es
  constructor
  · exact SubMgr.sub_countTasks_le_one _ ⟨h1, h2, h3, h4⟩ s uri
  · intro oldId st' hold hs
    unfold SubMgr.subscribe at hs
    by_cases hpre : SubMgr.startsWithStream uri = false
    · rw [if_pos hpre] at hs
      exact absurd hs (by simp)
    · rw [if_neg hpre] at hs
      simp only [hold] at hs
      rw [Except.ok.injEq] at hs
      have hbound := h4 s uri oldId hold
      constructor
      · rw [← hs]
        dsimp only
        intro hmem
        rcases List.mem_map.mp hmem with ⟨t, htl, hid⟩
        rcases List.mem_cons.mp htl with hteq | htl2
        · subst hteq
          dsimp only at hid
          omega
        · rw [List.mem_filter] at htl2
          have hne : t.id ≠ oldId := by simpa using htl2.2
          exact hne hid
      · rw [← hs]
        unfold SubMgr.countTasks
        dsimp only
        have hnew : SubMgr.taskFor s uri ⟨(SubMgr.run es).nextTask, s, uri⟩ = true := by
          simp [SubMgr.taskFor]
        have hrest :
            ((SubMgr.run es).live.filter (fun t => t.id ≠ oldId)).filter
              (SubMgr.taskFor s uri) = [] := by
          rw [List.filter_eq_nil_iff]
          intro t ht hfor
          rw [List.mem_filter] at ht
          have hc : t.session = s ∧ t.uri = uri := by
            simpa [SubMgr.taskFor] using hfor
          have hmt := h1 t ht.1
          rw [hc.1, hc.2] at hmt
          rw [hmt] at hold
          have hideq : t.id = oldId := by simpa using hold
          have hne : t.id ≠ oldId := by simpa using ht.2
          exact hne hideq
        rw [List.filter_cons, if_pos hnew, hrest]
        rfl

/-- Instantiation of `c3_at_most_one_task_per_pair`: after session 0
subscribes once, a second subscribe cancels interval 0 and leaves exactly one
live task for the pair. -/
theorem c3_at_most_one_task_per_pair_witness :
    SubMgr.countTasks c3WitnessBase 0 "stream://market/AAPL" ≤ 1 ∧
    0 ∉ c3WitnessNext.live.map SubMgr.Task.id ∧
    SubMgr.countTasks c3WitnessNext 0 "stream://market/AAPL" = 1 := by
  have h := c3_at_most_one_task_per_pair
      [SubMgr.Event.subscribe 0 "stream://market/AAPL"] 0 "stream://market/AAPL"
  have h2 := h.2 0 c3WitnessNext (by decide) rfl
  exact ⟨h.1, h2.1, h2.2⟩
